import Mathlib

/-!
Verification of the scoring and ranking engine of Free-Judgesystem.

This file is a shallow embedding of `src/lib/scoring.ts` (with the data
types it consumes from `src/lib/types.ts`) into Lean 4, followed by
theorems settling the specification claims about that engine.

Modelling conventions:
* TypeScript `number` values carried by the engine (judge values, averages,
  weights, totals) are modelled as exact rationals `ℚ`; `Math.round(x)` is
  `⌊x + 1/2⌋` (round half toward positive infinity), so `round2` below is the
  exact-arithmetic meaning of `Math.round(n * 100) / 100`.
* `null` is modelled by `Option`; a TS function returning `T | null` becomes
  a Lean function returning `Option T`.
* A JS `Map` iterated in insertion order is modelled as an association list
  in insertion order (`groupByAttempt`).
* JS `Array.prototype.sort` (stable since ES2019) with comparator `c` is
  modelled as `List.mergeSort le` where `le a b` holds iff `c a b ≤ 0`.
-/

namespace Judgesystem

/-- Judge roles: `JUDGE_ROLES = ['J1', 'J2', 'J3'] as const` in
`src/lib/types.ts`. -/
inductive JudgeRole where
  | J1
  | J2
  | J3
deriving DecidableEq, Repr

/-- The fixed list of judge roles, in source order. -/
def JUDGE_ROLES : List JudgeRole := [.J1, .J2, .J3]

/-- A score submitted by a judge (`interface Score` in `src/lib/types.ts`):
judge role, category id, athlete bib, run (1 or 2), attempt number, value.
The TS field types `run : 1 | 2` and `attempt : number` are both modelled as
`Nat` (callers guarantee `run ∈ {1, 2}`); `attempt` is a required field of
the TS interface, so the defensive `s.attempt ?? 1` in `computeRunScore`
never sees `undefined` for well-typed input and is not modelled. -/
structure Score where
  judgeRole : JudgeRole
  categoryId : String
  athleteBib : Nat
  run : Nat
  attempt : Nat
  value : ℚ
deriving DecidableEq, Repr

/-- A category as read by `src/lib/scoring.ts`: `cat.id`, `cat.name` and
`cat.weight` are the only fields the engine touches.  Note: the `Category`
interface in the checked-in `src/lib/types.ts` revision has no `weight`
field (STATUS.md records "US-A02b Remove category weight concept" as
merged), yet `scoring.ts` still reads `cat.weight`; the field is included
here because the embedded code dereferences it. -/
structure Category where
  id : String
  name : String
  weight : ℚ
deriving DecidableEq, Repr

/-- An athlete (`interface Athlete` in `src/lib/types.ts`). -/
structure Athlete where
  bib : Nat
  name : String
deriving DecidableEq, Repr

/-- Result of scoring one run (`interface RunScoreResult`).  The
`Record<string, number | null>` judge map is modelled as an association
list over the fixed judge roles, in `JUDGE_ROLES` order. -/
structure RunScoreResult where
  complete : Bool
  average : Option ℚ
  attempt : Nat
  scores : List (JudgeRole × Option ℚ)
deriving DecidableEq, Repr

/-- Per-category scoring detail (`interface CategoryScoreDetail`).
`bestRun : 1 | 2 | null` becomes `Option Nat`. -/
structure CategoryScoreDetail where
  categoryId : String
  categoryName : String
  weight : ℚ
  bestRun : Option Nat
  bestAverage : Option ℚ
  bestAttempt : Option Nat
  weighted : Option ℚ
  complete : Bool
  run1 : Option RunScoreResult
  run2 : Option RunScoreResult
deriving DecidableEq, Repr

/-- Final score of one athlete (`interface FinalScoreResult`). -/
structure FinalScoreResult where
  athleteBib : Nat
  athleteName : String
  complete : Bool
  weightedTotal : Option ℚ
  categoryScores : List CategoryScoreDetail
deriving DecidableEq, Repr

/-- A ranked athlete (`interface RankedAthlete extends FinalScoreResult`). -/
structure RankedAthlete extends FinalScoreResult where
  rank : Nat
deriving DecidableEq, Repr

/-- `round2(n) { return Math.round(n * 100) / 100; }` — with exact rational
arithmetic, `Math.round x = ⌊x + 1/2⌋` (round half up). -/
def round2 (q : ℚ) : ℚ := (⌊q * 100 + 1 / 2⌋ : ℤ) / 100

/-- The filter predicate of `computeRunScore`:
`s.categoryId === categoryId && s.athleteBib === athleteBib && s.run === run`. -/
def matchesQuery (categoryId : String) (athleteBib : Nat) (run : Nat) (s : Score) : Bool :=
  decide (s.categoryId = categoryId) && decide (s.athleteBib = athleteBib) &&
    decide (s.run = run)

/-- One step of building the `byAttempt` map: append `s` to the entry with
key `k` if present (JS `Map.get` / push / `Map.set` on an existing key keeps
the key's position), else add a new `(k, [s])` entry at the end. -/
def addToGroups (gs : List (Nat × List Score)) (k : Nat) (s : Score) :
    List (Nat × List Score) :=
  match gs with
  | [] => [(k, [s])]
  | (k2, g) :: rest =>
    if k2 = k then (k2, g ++ [s]) :: rest else (k2, g) :: addToGroups rest k s

/-- The `byAttempt` grouping loop of `computeRunScore`: a JS `Map` built by
insertion, iterated in insertion order. -/
def groupByAttempt (l : List Score) : List (Nat × List Score) :=
  l.foldl (fun gs s => addToGroups gs s.attempt s) []

/-- The `judgeMap` of one attempt group:
`judgeMap[role] = attemptScores.find(sc => sc.judgeRole === role)?.value ?? null`
for each role in `JUDGE_ROLES` order. -/
def judgeTable (g : List Score) : List (JudgeRole × Option ℚ) :=
  JUDGE_ROLES.map (fun ro => (ro, (g.find? (fun sc => decide (sc.judgeRole = ro))).map Score.value))

/-- Scoring of one attempt group inside `computeRunScore`: build the judge
map, collect present values (`JUDGE_ROLES.map(r => judgeMap[r]).filter(v => v !== null)`),
set `complete = values.length === JUDGE_ROLES.length` and
`average = values.length > 0 ? round2(sum / values.length) : null`. -/
def scoreAttempt (att : Nat) (g : List Score) : RunScoreResult :=
  let judgeMap := judgeTable g
  let values := judgeMap.filterMap Prod.snd
  { complete := decide (values.length = JUDGE_ROLES.length)
    average :=
      if 0 < values.length then some (round2 (values.sum / values.length)) else none
    attempt := att
    scores := judgeMap }

/-- The replacement condition of the best-attempt loop:
`(result.complete && !best.complete) ||
 (result.complete === best.complete && (result.average ?? -1) > (best.average ?? -1))`. -/
def betterAttempt (r best : RunScoreResult) : Bool :=
  (r.complete && !best.complete) ||
    (decide (r.complete = best.complete) && decide (best.average.getD (-1) < r.average.getD (-1)))

/-- The best-attempt selection loop of `computeRunScore`: `best` starts as
the first result and is replaced exactly when `betterAttempt` holds. -/
def pickBest : List RunScoreResult → Option RunScoreResult
  | [] => none
  | r :: rest => some (rest.foldl (fun best r2 => if betterAttempt r2 best then r2 else best) r)

/-- The per-attempt results of `computeRunScore`, in attempt-group insertion
order. -/
def attemptResults (scores : List Score) (categoryId : String) (athleteBib : Nat)
    (run : Nat) : List RunScoreResult :=
  (groupByAttempt (scores.filter (matchesQuery categoryId athleteBib run))).map
    (fun p => scoreAttempt p.1 p.2)

/-- `computeRunScore(scores, categoryId, athleteBib, run)` from
`src/lib/scoring.ts`: filter, return `null` on no match, else group by
attempt, score each attempt, and pick the best one. -/
def computeRunScore (scores : List Score) (categoryId : String) (athleteBib : Nat)
    (run : Nat) : Option RunScoreResult :=
  if (scores.filter (matchesQuery categoryId athleteBib run)).isEmpty then none
  else pickBest (attemptResults scores categoryId athleteBib run)

/-- The best-run selection chain of `computeFinalScore`: when both runs
exist, prefer the complete one, otherwise
`(run1.average ?? -1) >= (run2.average ?? -1) ? 1 : 2`; when only one run
exists use it; else `null`. -/
def pickBestRun (run1 run2 : Option RunScoreResult) : Option Nat :=
  match run1, run2 with
  | some r1, some r2 =>
    if r1.complete && !r2.complete then some 1
    else if r2.complete && !r1.complete then some 2
    else if r2.average.getD (-1) ≤ r1.average.getD (-1) then some 1 else some 2
  | some _, none => some 1
  | none, some _ => some 2
  | none, none => none

/-- The loop body of `computeFinalScore` for one category: run scores for
both runs, best-run selection, propagated best average / attempt /
completeness, and `weighted = round2(bestAverage * cat.weight / 100)`. -/
def scoreCategory (scores : List Score) (bib : Nat) (cat : Category) :
    CategoryScoreDetail :=
  let run1 := computeRunScore scores cat.id bib 1
  let run2 := computeRunScore scores cat.id bib 2
  let bestRun := pickBestRun run1 run2
  let bestResult := if bestRun = some 1 then run1 else if bestRun = some 2 then run2 else none
  let bestAverage := bestResult.bind RunScoreResult.average
  let catComplete := match bestResult with
    | some r => r.complete
    | none => false
  { categoryId := cat.id
    categoryName := cat.name
    weight := cat.weight
    bestRun := bestRun
    bestAverage := bestAverage
    bestAttempt := bestResult.map RunScoreResult.attempt
    weighted := bestAverage.map (fun a => round2 (a * cat.weight / 100))
    complete := catComplete
    run1 := run1
    run2 := run2 }

/-- `computeFinalScore(scores, categories, athlete)` from `src/lib/scoring.ts`.
The source accumulates `allComplete` (starts `true`, cleared whenever a
category's best run is not complete), `hasAnyScore` (set whenever a category
contributes a non-null `weighted`) and `weightedSum` (sum of the non-null
`weighted` values) across the category loop; those accumulators are exactly
the conjunction, disjunction and sum over the per-category details computed
by the loop body `scoreCategory`. -/
def computeFinalScore (scores : List Score) (categories : List Category)
    (athlete : Athlete) : FinalScoreResult :=
  let categoryScores := categories.map (scoreCategory scores athlete.bib)
  let allComplete := categoryScores.all (fun d => d.complete)
  let hasAnyScore := categoryScores.any (fun d => d.weighted.isSome)
  let weightedSum := (categoryScores.filterMap (fun d => d.weighted)).sum
  { athleteBib := athlete.bib
    athleteName := athlete.name
    complete := allComplete && decide (0 < categories.length)
    weightedTotal := if hasAnyScore then some (round2 weightedSum) else none
    categoryScores := categoryScores }

/-- Stable-sort order for `scored.sort((a, b) => (b.weightedTotal ?? 0) - (a.weightedTotal ?? 0))`:
descending by total. -/
def totalDescLe (a b : FinalScoreResult) : Bool :=
  decide (b.weightedTotal.getD 0 ≤ a.weightedTotal.getD 0)

/-- Stable-sort order for `ranked.sort((a, b) => a.rank - b.rank || a.athleteBib - b.athleteBib)`:
rank ascending, then bib ascending. -/
def rankBibLe (a b : RankedAthlete) : Bool :=
  decide (a.rank < b.rank ∨ (a.rank = b.rank ∧ a.athleteBib ≤ b.athleteBib))

/-- The rank-assignment loop of `rankAthletes`: `currentRank` starts at 1;
at index `i > 0`, if the total differs from the previous element's total,
`currentRank` becomes `i + 1`; every element is emitted with the current
rank. -/
def assignRanksGo (prevTotal : Option ℚ) (i currentRank : Nat) :
    List FinalScoreResult → List RankedAthlete
  | [] => []
  | f :: rest =>
    let r := if 0 < i ∧ f.weightedTotal ≠ prevTotal then i + 1 else currentRank
    ⟨f, r⟩ :: assignRanksGo f.weightedTotal (i + 1) r rest

/-- Rank assignment over the sorted scored list (the `for` loop of
`rankAthletes`). -/
def assignRanks (l : List FinalScoreResult) : List RankedAthlete :=
  assignRanksGo none 0 1 l

/-- The body of `rankAthletes` after the `finals` computation: split scored /
unscored, sort scored descending by total, assign ranks, append all unscored
athletes with `lastRank = ranked.length > 0 ? ranked.length + 1 : 1`, and
stable-sort by rank then bib. -/
def rankFinals (finals : List FinalScoreResult) : List RankedAthlete :=
  let scored := finals.filter (fun f => f.weightedTotal.isSome)
  let unscored := finals.filter (fun f => !f.weightedTotal.isSome)
  let ranked := assignRanks (scored.mergeSort totalDescLe)
  let lastRank := if 0 < ranked.length then ranked.length + 1 else 1
  (ranked ++ unscored.map (fun f => ({ toFinalScoreResult := f, rank := lastRank } : RankedAthlete))).mergeSort rankBibLe

/-- `rankAthletes(scores, categories, athletes)` from `src/lib/scoring.ts`:
compute final scores for all athletes, then rank them (`rankFinals`). -/
def rankAthletes (scores : List Score) (categories : List Category)
    (athletes : List Athlete) : List RankedAthlete :=
  rankFinals (athletes.map (computeFinalScore scores categories))

/-! ## Concrete example data used by claim instances and witnesses -/

/-- Two categories with weight 50 each (weights 0..100 are what the
category-management route accepts). -/
def c1CatA : Category := ⟨"A", "Technik", 50⟩

/-- Second weight-50 category for the weighting counterexample. -/
def c1CatB : Category := ⟨"B", "Choreografie", 50⟩

/-- All three judges give 80 in category A and 60 in category B (run 1). -/
def c1Scores : List Score :=
  [⟨.J1, "A", 1, 1, 1, 80⟩, ⟨.J2, "A", 1, 1, 1, 80⟩, ⟨.J3, "A", 1, 1, 1, 80⟩,
   ⟨.J1, "B", 1, 1, 1, 60⟩, ⟨.J2, "B", 1, 1, 1, 60⟩, ⟨.J3, "B", 1, 1, 1, 60⟩]

/-- The athlete of the concrete scenarios. -/
def c1Athlete : Athlete := ⟨1, "Alice"⟩

/-- Run with two attempts: attempt 1 fully judged (50/60/70, average 60),
attempt 2 scored by J1 only with 95. -/
def c3Scores : List Score :=
  [⟨.J1, "cat1", 1, 1, 1, 50⟩, ⟨.J2, "cat1", 1, 1, 1, 60⟩, ⟨.J3, "cat1", 1, 1, 1, 70⟩,
   ⟨.J1, "cat1", 1, 1, 2, 95⟩]

/-- The expected selected attempt for `c3Scores`: the complete attempt 1. -/
def c3Result : RunScoreResult :=
  ⟨true, some 60, 1, [(.J1, some 50), (.J2, some 60), (.J3, some 70)]⟩

/-- A complete run result with average 70. -/
def c4r1 : RunScoreResult := ⟨true, some 70, 1, []⟩

/-- A complete run result with average 90. -/
def c4r2 : RunScoreResult := ⟨true, some 90, 1, []⟩

/-- All three judges score 77, 78, 79 on run 1 attempt 1. -/
def c9Scores : List Score :=
  [⟨.J1, "cat1", 1, 1, 1, 77⟩, ⟨.J2, "cat1", 1, 1, 1, 78⟩, ⟨.J3, "cat1", 1, 1, 1, 79⟩]

/-- The expected run result for `c9Scores`: complete, average 78. -/
def c9Result : RunScoreResult :=
  ⟨true, some 78, 1, [(.J1, some 77), (.J2, some 78), (.J3, some 79)]⟩

/-- One full-weight category for the ranking scenarios. -/
def c2Cat : Category := ⟨"cat1", "Freestyle", 100⟩

/-- Three athletes fully judged in one category: bibs 1 and 2 average 80,
bib 3 averages 70. -/
def c2Scores : List Score :=
  [⟨.J1, "cat1", 1, 1, 1, 80⟩, ⟨.J2, "cat1", 1, 1, 1, 80⟩, ⟨.J3, "cat1", 1, 1, 1, 80⟩,
   ⟨.J1, "cat1", 2, 1, 1, 80⟩, ⟨.J2, "cat1", 2, 1, 1, 80⟩, ⟨.J3, "cat1", 2, 1, 1, 80⟩,
   ⟨.J1, "cat1", 3, 1, 1, 70⟩, ⟨.J2, "cat1", 3, 1, 1, 70⟩, ⟨.J3, "cat1", 3, 1, 1, 70⟩]

/-- The roster for the tie scenario. -/
def c2Athletes : List Athlete := [⟨1, "Alice"⟩, ⟨2, "Bob"⟩, ⟨3, "Carol"⟩]

/-- A sorted list of final results with totals 80, 80, 70 (used to witness
the rank-assignment characterization). -/
def c2Finals : List FinalScoreResult :=
  [⟨1, "Alice", true, some 80, []⟩, ⟨2, "Bob", true, some 80, []⟩,
   ⟨3, "Carol", true, some 70, []⟩]

/-- Two submissions with the same (judgeRole, categoryId, athleteBib, run,
attempt) tuple — the upsert key the persistence layer enforces. -/
def sameTuple (a b : Score) : Prop :=
  a.judgeRole = b.judgeRole ∧ a.categoryId = b.categoryId ∧
    a.athleteBib = b.athleteBib ∧ a.run = b.run ∧ a.attempt = b.attempt

/-- A later duplicate of the first submission of `c9Scores` (same tuple,
different value). -/
def c10Dup : Score := ⟨.J1, "cat1", 1, 1, 1, 95⟩

/-- A further submission arriving after the duplicate (J2 re-scores 81 on
the same run and attempt), so the duplicate sits in the middle of the
input list. -/
def c10Tail : List Score := [⟨.J2, "cat1", 1, 1, 1, 81⟩]

/-! ## The best-attempt order -/

/-- The strict order in which one attempt result beats another, read off the
replacement condition of the best-attempt loop: complete beats incomplete;
at equal completeness a strictly higher average (with `null` read as `-1`)
wins. -/
def Better (r b : RunScoreResult) : Prop :=
  (r.complete = true ∧ b.complete = false) ∨
    (r.complete = b.complete ∧ b.average.getD (-1) < r.average.getD (-1))

theorem betterAttempt_iff (r b : RunScoreResult) : betterAttempt r b = true ↔ Better r b := by
  cases hr : r.complete <;> cases hb : b.complete <;>
    simp [betterAttempt, Better, hr, hb]

theorem better_asymm {a b : RunScoreResult} (h : Better a b) : ¬ Better b a := by
  rcases h with ⟨h1, h2⟩ | ⟨h1, h2⟩ <;> rintro (⟨g1, g2⟩ | ⟨g1, g2⟩) <;>
    simp_all
  linarith

theorem better_irrefl (a : RunScoreResult) : ¬ Better a a := by
  intro h
  exact better_asymm h h

theorem better_trans {a b c : RunScoreResult} (h1 : Better a b) (h2 : Better b c) :
    Better a c := by
  rcases h1 with ⟨x1, x2⟩ | ⟨x1, x2⟩ <;> rcases h2 with ⟨y1, y2⟩ | ⟨y1, y2⟩
  · exact absurd y1 (x2 ▸ Bool.false_ne_true)
  · exact Or.inl ⟨x1, y1.symm.trans x2⟩
  · exact Or.inl ⟨x1.trans y1, y2⟩
  · exact Or.inr ⟨x1.trans y1, y2.trans x2⟩

theorem better_or_key_eq {a b : RunScoreResult} (h : ¬ Better a b) :
    Better b a ∨ (a.complete = b.complete ∧
      a.average.getD (-1) = b.average.getD (-1)) := by
  rw [Better, not_or] at h
  obtain ⟨h1, h2⟩ := h
  by_cases hc : a.complete = b.complete
  · rcases lt_trichotomy (a.average.getD (-1)) (b.average.getD (-1)) with hlt | heq | hgt
    · exact Or.inl (Or.inr ⟨hc.symm, hlt⟩)
    · exact Or.inr ⟨hc, heq⟩
    · exact absurd ⟨hc, hgt⟩ h2
  · cases ha : a.complete <;> cases hb : b.complete
    · exact absurd (ha.trans hb.symm) hc
    · exact Or.inl (Or.inl ⟨hb, ha⟩)
    · exact absurd ⟨ha, hb⟩ h1
    · exact absurd (ha.trans hb.symm) hc

theorem better_congr {x y c : RunScoreResult} (h1 : x.complete = y.complete)
    (h2 : x.average.getD (-1) = y.average.getD (-1)) (h : Better c x) : Better c y := by
  rcases h with ⟨g1, g2⟩ | ⟨g1, g2⟩
  · exact Or.inl ⟨g1, h1 ▸ g2⟩
  · exact Or.inr ⟨g1.trans h1, h2 ▸ g2⟩

theorem pickBest_loop_spec (xs : List RunScoreResult) :
    ∀ x : RunScoreResult,
      ∃ m l1 l2, xs.foldl (fun best r2 => if betterAttempt r2 best then r2 else best) x = m ∧
        x :: xs = l1 ++ m :: l2 ∧ (∀ r ∈ x :: xs, ¬ Better r m) ∧ (∀ r ∈ l1, Better m r) := by
  induction xs with
  | nil =>
    intro x
    refine ⟨x, [], [], rfl, rfl, ?_, by simp⟩
    intro r hr
    simp only [List.mem_singleton] at hr
    subst hr
    exact better_irrefl r
  | cons y ys ih =>
    intro x
    simp only [List.foldl_cons]
    by_cases hb : betterAttempt y x = true
    · rw [if_pos hb]
      have hyx : Better y x := (betterAttempt_iff _ _).1 hb
      obtain ⟨m, l1, l2, hm, hsplit, hmax, hfirst⟩ := ih y
      have hmx : Better m x := by
        cases l1 with
        | nil =>
          simp only [List.nil_append] at hsplit
          obtain ⟨h1, -⟩ := List.cons.injEq .. ▸ hsplit
          exact h1 ▸ hyx
        | cons a t =>
          have ha : a = y := by
            have := congrArg (fun l => l.head?) hsplit
            simpa using this.symm
          exact better_trans (hfirst a (List.mem_cons_self a t)) (ha ▸ hyx)
      refine ⟨m, x :: l1, l2, hm, by simpa using hsplit, ?_, ?_⟩
      · intro r hr
        rcases List.mem_cons.1 hr with h | h
        · exact h ▸ fun hc => better_asymm hmx hc
        · exact hmax r h
      · intro r hr
        rcases List.mem_cons.1 hr with h | h
        · exact h ▸ hmx
        · exact hfirst r h
    · rw [if_neg hb]
      have hnyx : ¬ Better y x := fun h => hb ((betterAttempt_iff _ _).2 h)
      obtain ⟨m, l1, l2, hm, hsplit, hmax, hfirst⟩ := ih x
      cases l1 with
      | nil =>
        simp only [List.nil_append] at hsplit
        have hmx : m = x := (List.cons.injEq .. ▸ hsplit).1.symm
        have hys : ys = l2 := (List.cons.injEq .. ▸ hsplit).2
        refine ⟨m, [], y :: l2, hm, by simp [hmx, hys], ?_, by simp⟩
        intro r hr
        rcases List.mem_cons.1 hr with h | h
        · exact h ▸ hmax x (List.mem_cons_self x ys)
        · rcases List.mem_cons.1 h with h2 | h2
          · exact h2 ▸ (hmx ▸ hnyx)
          · exact hmax r (List.mem_cons_of_mem x (hys ▸ h2))
      | cons a t =>
        have ha : a = x := by
          have := congrArg (fun l => l.head?) hsplit
          simpa using this.symm
        have hys : ys = t ++ m :: l2 := by
          have := congrArg (fun l => l.tail) hsplit
          simpa using this
        have hmx : Better m x := ha ▸ hfirst a (List.mem_cons_self a t)
        have hmy : Better m y := by
          rcases better_or_key_eq hnyx with h | ⟨h1, h2⟩
          · exact better_trans hmx h
          · exact better_congr h1.symm h2.symm hmx
        refine ⟨m, x :: y :: t, l2, hm, by simp [hys], ?_, ?_⟩
        · intro r hr
          rcases List.mem_cons.1 hr with h | h
          · exact h ▸ hmax x (List.mem_cons_self x ys)
          · rcases List.mem_cons.1 h with h2 | h2
            · exact h2 ▸ fun hc => better_asymm hmy hc
            · exact hmax r (List.mem_cons_of_mem x h2)
        · intro r hr
          rcases List.mem_cons.1 hr with h | h
          · exact h ▸ hmx
          · rcases List.mem_cons.1 h with h2 | h2
            · exact h2 ▸ hmy
            · exact hfirst r (ha ▸ List.mem_cons_of_mem a h2)

theorem pickBest_spec {l : List RunScoreResult} {m : RunScoreResult}
    (h : pickBest l = some m) :
    (∀ r ∈ l, ¬ Better r m) ∧ ∃ l1 l2, l = l1 ++ m :: l2 ∧ ∀ r ∈ l1, Better m r := by
  cases l with
  | nil => simp [pickBest] at h
  | cons x xs =>
    obtain ⟨m2, l1, l2, hm2, hsplit, hmax, hfirst⟩ := pickBest_loop_spec xs x
    have : m2 = m := by
      simpa [pickBest, hm2] using h
    subst this
    exact ⟨hmax, l1, l2, hsplit, hfirst⟩

theorem pickBest_mem {l : List RunScoreResult} {m : RunScoreResult}
    (h : pickBest l = some m) : m ∈ l := by
  obtain ⟨-, l1, l2, hsplit, -⟩ := pickBest_spec h
  exact hsplit ▸ List.mem_append_right l1 (List.mem_cons_self m l2)

/-! ## Claim theorems -/

/-- Claim C1 (refuted by the checked-in code, which contradicts the
repository's own tests and types): the claim says the final total is the
rounded sum of raw best-run averages with no weighting, so best averages 80
and 60 across two categories should give 140.  The `computeFinalScore` in
`src/lib/scoring.ts` multiplies each category average by `cat.weight / 100`:
with two weight-50 categories and complete averages 80 and 60 it returns
70, not 140. -/
theorem claim_C1_weight_divergence :
    (computeFinalScore c1Scores [c1CatA, c1CatB] c1Athlete).weightedTotal = some 70 ∧
    (computeFinalScore c1Scores [c1CatA, c1CatB] c1Athlete).weightedTotal ≠ some 140 := by
  have h : (computeFinalScore c1Scores [c1CatA, c1CatB] c1Athlete).weightedTotal = some 70 := by
    norm_num +decide [computeFinalScore, scoreCategory, pickBestRun, computeRunScore,
      attemptResults, matchesQuery, groupByAttempt, addToGroups, pickBest, scoreAttempt,
      judgeTable, JUDGE_ROLES, round2, betterAttempt, List.find?, List.filterMap_cons,
      List.sum_cons, List.sum_nil, c1Scores, c1CatA, c1CatB, c1Athlete]
  refine ⟨h, ?_⟩
  rw [h]
  intro hc
  rw [Option.some.injEq] at hc
  norm_num at hc

/-- Claim C3: whenever `computeRunScore` returns a result, that result is one
of the per-attempt results, no attempt result beats it in the
complete-before-average order `Better`, and it strictly beats every attempt
result that precedes it (so exact ties keep the first-seen attempt group). -/
theorem claim_C3_best_attempt_selection (s : List Score) (c : String) (bib run : Nat)
    (m : RunScoreResult) (h : computeRunScore s c bib run = some m) :
    (∀ r ∈ attemptResults s c bib run, ¬ Better r m) ∧
    ∃ l1 l2, attemptResults s c bib run = l1 ++ m :: l2 ∧ ∀ r ∈ l1, Better m r := by
  rw [computeRunScore] at h
  by_cases he : (s.filter (matchesQuery c bib run)).isEmpty
  · rw [if_pos he] at h
    exact absurd h (by simp)
  · rw [if_neg he] at h
    exact pickBest_spec h

/-- Witness for claim C3: on a run with a complete attempt averaging 60 and
a later single-judge attempt of 95, the complete attempt is the selected
result. -/
theorem claim_C3_best_attempt_selection_witness :
    computeRunScore c3Scores "cat1" 1 1 = some c3Result ∧
    ((∀ r ∈ attemptResults c3Scores "cat1" 1 1, ¬ Better r c3Result) ∧
      ∃ l1 l2, attemptResults c3Scores "cat1" 1 1 = l1 ++ c3Result :: l2 ∧
        ∀ r ∈ l1, Better c3Result r) := by
  have h : computeRunScore c3Scores "cat1" 1 1 = some c3Result := by
    norm_num +decide [computeRunScore, attemptResults, matchesQuery, groupByAttempt,
      addToGroups, pickBest, scoreAttempt, judgeTable, JUDGE_ROLES, round2, betterAttempt,
      List.find?, List.filterMap_cons, List.sum_cons, List.sum_nil, c3Scores, c3Result]
  exact ⟨h, claim_C3_best_attempt_selection c3Scores "cat1" 1 1 c3Result h⟩

/-- Claim C4: the best-run selection of `computeFinalScore` uses the single
existing run when only one has a result; prefers the complete run when
completeness differs; at equal completeness picks the run with the higher
average, run 1 on an exact tie; and the `bestRun` field of the per-category
detail is exactly this selection applied to the two run scores. -/
theorem claim_C4_best_run_selection :
    (∀ r1 : RunScoreResult, pickBestRun (some r1) none = some 1) ∧
    (∀ r2 : RunScoreResult, pickBestRun none (some r2) = some 2) ∧
    (∀ r1 r2 : RunScoreResult, r1.complete = true → r2.complete = false →
      pickBestRun (some r1) (some r2) = some 1) ∧
    (∀ r1 r2 : RunScoreResult, r1.complete = false → r2.complete = true →
      pickBestRun (some r1) (some r2) = some 2) ∧
    (∀ r1 r2 : RunScoreResult, r1.complete = r2.complete →
      r2.average.getD (-1) < r1.average.getD (-1) →
      pickBestRun (some r1) (some r2) = some 1) ∧
    (∀ r1 r2 : RunScoreResult, r1.complete = r2.complete →
      r1.average.getD (-1) < r2.average.getD (-1) →
      pickBestRun (some r1) (some r2) = some 2) ∧
    (∀ r1 r2 : RunScoreResult, r1.complete = r2.complete →
      r1.average.getD (-1) = r2.average.getD (-1) →
      pickBestRun (some r1) (some r2) = some 1) ∧
    (∀ (s : List Score) (bib : Nat) (cat : Category),
      (scoreCategory s bib cat).bestRun =
        pickBestRun (computeRunScore s cat.id bib 1) (computeRunScore s cat.id bib 2)) := by
  refine ⟨fun r1 => rfl, fun r2 => rfl, ?_, ?_, ?_, ?_, ?_, fun s bib cat => rfl⟩
  · intro r1 r2 h1 h2
    simp [pickBestRun, h1, h2]
  · intro r1 r2 h1 h2
    simp [pickBestRun, h1, h2]
  · intro r1 r2 hc hlt
    cases h1 : r1.complete <;> rw [h1] at hc <;>
      simp [pickBestRun, h1, ← hc, le_of_lt hlt]
  · intro r1 r2 hc hlt
    cases h1 : r1.complete <;> rw [h1] at hc <;>
      simp [pickBestRun, h1, ← hc, not_le.2 hlt]
  · intro r1 r2 hc heq
    cases h1 : r1.complete <;> rw [h1] at hc <;>
      simp [pickBestRun, h1, ← hc, le_of_eq heq.symm]

/-- Witness for claim C4: with both runs complete and averages 70 and 90,
run 2 is selected. -/
theorem claim_C4_best_run_selection_witness :
    c4r1.complete = c4r2.complete ∧
    c4r1.average.getD (-1) < c4r2.average.getD (-1) ∧
    pickBestRun (some c4r1) (some c4r2) = some 2 :=
  ⟨rfl, by norm_num [c4r1, c4r2],
    claim_C4_best_run_selection.2.2.2.2.2.1 c4r1 c4r2 rfl (by norm_num [c4r1, c4r2])⟩

/-! ## Non-empty grouping helpers -/

theorem addToGroups_ne_nil (gs : List (Nat × List Score)) (k : Nat) (s : Score) :
    addToGroups gs k s ≠ [] := by
  cases gs with
  | nil => simp [addToGroups]
  | cons p rest =>
    obtain ⟨k2, g⟩ := p
    simp only [addToGroups]
    split <;> simp

theorem foldGroups_ne_nil (l : List Score) :
    ∀ gs : List (Nat × List Score), gs ≠ [] →
      l.foldl (fun gs s => addToGroups gs s.attempt s) gs ≠ [] := by
  induction l with
  | nil => exact fun gs h => h
  | cons x xs ih =>
    intro gs h
    exact ih (addToGroups gs x.attempt x) (addToGroups_ne_nil gs x.attempt x)

theorem groupByAttempt_ne_nil {l : List Score} (h : l ≠ []) : groupByAttempt l ≠ [] := by
  cases l with
  | nil => exact absurd rfl h
  | cons x xs =>
    exact foldGroups_ne_nil xs (addToGroups [] x.attempt x) (addToGroups_ne_nil [] x.attempt x)

theorem addToGroups_groups_ne_nil {gs : List (Nat × List Score)} {k : Nat} {s : Score}
    (h : ∀ p ∈ gs, p.2 ≠ []) : ∀ p ∈ addToGroups gs k s, p.2 ≠ [] := by
  induction gs with
  | nil =>
    intro p hp
    simp only [addToGroups, List.mem_singleton] at hp
    subst hp
    simp
  | cons q rest ih =>
    obtain ⟨k2, g⟩ := q
    intro p hp
    simp only [addToGroups] at hp
    by_cases hk : k2 = k
    · rw [if_pos hk] at hp
      rcases List.mem_cons.1 hp with h2 | h2
      · subst h2
        simp
      · exact h p (List.mem_cons_of_mem _ h2)
    · rw [if_neg hk] at hp
      rcases List.mem_cons.1 hp with h2 | h2
      · subst h2
        exact h (k2, g) (List.mem_cons_self _ _)
      · exact ih (fun p hp => h p (List.mem_cons_of_mem _ hp)) p h2

theorem foldGroups_groups_ne_nil (l : List Score) :
    ∀ gs : List (Nat × List Score), (∀ p ∈ gs, p.2 ≠ []) →
      ∀ p ∈ l.foldl (fun gs s => addToGroups gs s.attempt s) gs, p.2 ≠ [] := by
  induction l with
  | nil => exact fun gs h => h
  | cons x xs ih =>
    intro gs h
    exact ih (addToGroups gs x.attempt x) (addToGroups_groups_ne_nil h)

theorem groupByAttempt_groups_ne_nil (l : List Score) :
    ∀ p ∈ groupByAttempt l, p.2 ≠ [] :=
  foldGroups_groups_ne_nil l [] (by simp)

theorem judgeRole_mem_roles (ro : JudgeRole) : ro ∈ JUDGE_ROLES := by
  cases ro <;> simp [JUDGE_ROLES]

theorem scoreAttempt_average_isSome {att : Nat} {g : List Score} (h : g ≠ []) :
    (scoreAttempt att g).average.isSome = true := by
  obtain ⟨s0, rest, rfl⟩ := List.exists_cons_of_ne_nil h
  have hfind : ((s0 :: rest).find? (fun sc => decide (sc.judgeRole = s0.judgeRole))).isSome = true :=
    List.find?_isSome.2 ⟨s0, List.mem_cons_self _ _, by simp⟩
  have hmem : (s0.judgeRole,
      (((s0 :: rest).find? (fun sc => decide (sc.judgeRole = s0.judgeRole))).map Score.value)) ∈
      judgeTable (s0 :: rest) :=
    List.mem_map.2 ⟨s0.judgeRole, judgeRole_mem_roles _, rfl⟩
  have hvals : (judgeTable (s0 :: rest)).filterMap Prod.snd ≠ [] := by
    intro hnil
    rw [List.filterMap_eq_nil_iff] at hnil
    have h2 := hnil _ hmem
    cases hfo : (s0 :: rest).find? (fun sc => decide (sc.judgeRole = s0.judgeRole)) with
    | none =>
      rw [hfo] at hfind
      simp at hfind
    | some v =>
      rw [hfo] at h2
      simp at h2
  simp only [scoreAttempt]
  rw [if_pos (List.length_pos.2 hvals)]
  simp

/-! ## Claims C5, C7, C9 -/

theorem computeRunScore_nil (c : String) (bib run : Nat) :
    computeRunScore [] c bib run = none := by
  simp [computeRunScore]

theorem scoreCategory_nil (bib : Nat) (cat : Category) :
    (scoreCategory [] bib cat).complete = false ∧ (scoreCategory [] bib cat).weighted = none := by
  simp [scoreCategory, computeRunScore_nil, pickBestRun]

/-- Claim C5: `computeFinalScore` always returns a result (it is total, by
type); its completeness flag is true exactly when the category list is
non-empty and every per-category detail is complete; with zero submissions
the total is absent and completeness is false. -/
theorem claim_C5_result_and_completeness (s : List Score) (cs : List Category)
    (a : Athlete) :
    ((computeFinalScore s cs a).complete = true ↔
      cs ≠ [] ∧ ∀ d ∈ (computeFinalScore s cs a).categoryScores, d.complete = true) ∧
    (s = [] → (computeFinalScore s cs a).weightedTotal = none ∧
      (computeFinalScore s cs a).complete = false) := by
  constructor
  · simp only [computeFinalScore, Bool.and_eq_true, List.all_eq_true, decide_eq_true_eq]
    rw [List.length_pos]
    exact ⟨fun ⟨h1, h2⟩ => ⟨h2, h1⟩, fun ⟨h1, h2⟩ => ⟨h2, h1⟩⟩
  · rintro rfl
    constructor
    · simp only [computeFinalScore]
      have hany : (cs.map (scoreCategory [] a.bib)).any (fun d => d.weighted.isSome) = false := by
        rw [List.any_eq_false]
        intro d hd
        obtain ⟨cat, -, rfl⟩ := List.mem_map.1 hd
        rw [(scoreCategory_nil a.bib cat).2]
        simp
      rw [hany]
      simp
    · cases cs with
      | nil => simp [computeFinalScore]
      | cons c0 cs2 =>
        simp [computeFinalScore, (scoreCategory_nil a.bib c0).1]

/-- Witness for claim C5: with no submissions and one category, the total is
absent and the result is not complete. -/
theorem claim_C5_result_and_completeness_witness :
    ([] : List Score) = [] ∧
    ((computeFinalScore [] [c1CatA] c1Athlete).weightedTotal = none ∧
      (computeFinalScore [] [c1CatA] c1Athlete).complete = false) :=
  ⟨rfl, (claim_C5_result_and_completeness [] [c1CatA] c1Athlete).2 rfl⟩

/-- Claim C7: `computeRunScore` returns an absent result exactly when no
submission matches the (category, athlete, run) query; and any returned
result has a present average (the defensive absent-average branch never
fires, because every matching submission carries a judge value). -/
theorem claim_C7_absent_iff_no_match (s : List Score) (c : String) (bib run : Nat) :
    (computeRunScore s c bib run = none ↔ s.filter (matchesQuery c bib run) = []) ∧
    (∀ m : RunScoreResult, computeRunScore s c bib run = some m →
      m.average.isSome = true) := by
  constructor
  · rw [computeRunScore]
    by_cases he : (s.filter (matchesQuery c bib run)).isEmpty
    · rw [if_pos he]
      simp [List.isEmpty_iff.1 he]
    · rw [if_neg he]
      constructor
      · intro h
        have hf : s.filter (matchesQuery c bib run) ≠ [] :=
          fun hh => he (List.isEmpty_iff.2 hh)
        have hg := groupByAttempt_ne_nil hf
        cases hres : attemptResults s c bib run with
        | nil =>
          rw [attemptResults, List.map_eq_nil_iff] at hres
          exact absurd hres hg
        | cons r rest =>
          rw [hres, pickBest] at h
          exact absurd h (by simp)
      · intro h
        exact absurd (List.isEmpty_iff.2 h) he
  · intro m hm
    rw [computeRunScore] at hm
    by_cases he : (s.filter (matchesQuery c bib run)).isEmpty
    · rw [if_pos he] at hm
      exact absurd hm (by simp)
    · rw [if_neg he] at hm
      obtain ⟨p, hp, rfl⟩ := List.mem_map.1 (pickBest_mem hm)
      exact scoreAttempt_average_isSome (groupByAttempt_groups_ne_nil _ p hp)

/-- Witness for claim C7: a fully judged run returns a result whose average
is present. -/
theorem claim_C7_absent_iff_no_match_witness :
    computeRunScore c9Scores "cat1" 1 1 = some c9Result ∧
    c9Result.average.isSome = true := by
  have h : computeRunScore c9Scores "cat1" 1 1 = some c9Result := by
    norm_num +decide [computeRunScore, attemptResults, matchesQuery, groupByAttempt,
      addToGroups, pickBest, scoreAttempt, judgeTable, JUDGE_ROLES, round2, betterAttempt,
      List.find?, List.filterMap_cons, List.sum_cons, List.sum_nil, c9Scores, c9Result]
  exact ⟨h, (claim_C7_absent_iff_no_match c9Scores "cat1" 1 1).2 c9Result h⟩

/-- Claim C9: `round2` is exact round-half-up to 2 decimal places (the
produced value `n / 100` satisfies `n - 1/2 ≤ 100 q < n + 1/2`, so an exact
tie rounds upward, as the `round2 (1/200) = 1/100` boundary conjunct
shows); a complete attempt's average is the exact three-value mean rounded
by `round2`; every average `computeRunScore` emits and every total
`computeFinalScore` emits is a `round2` image; and judges 77, 78, 79
average to exactly 78. -/
theorem claim_C9_round_half_up :
    (∀ q : ℚ, ∃ n : ℤ, round2 q = (n : ℚ) / 100 ∧
      (n : ℚ) - 1 / 2 ≤ q * 100 ∧ q * 100 < (n : ℚ) + 1 / 2) ∧
    (∀ (att : Nat) (g : List Score) (x1 x2 x3 : Score),
      g.find? (fun sc => decide (sc.judgeRole = JudgeRole.J1)) = some x1 →
      g.find? (fun sc => decide (sc.judgeRole = JudgeRole.J2)) = some x2 →
      g.find? (fun sc => decide (sc.judgeRole = JudgeRole.J3)) = some x3 →
      (scoreAttempt att g).complete = true ∧
      (scoreAttempt att g).average = some (round2 ((x1.value + x2.value + x3.value) / 3))) ∧
    (∀ (s : List Score) (c : String) (bib run : Nat) (m : RunScoreResult) (x : ℚ),
      computeRunScore s c bib run = some m → m.average = some x → ∃ q, x = round2 q) ∧
    (∀ (s : List Score) (cs : List Category) (a : Athlete) (x : ℚ),
      (computeFinalScore s cs a).weightedTotal = some x → ∃ q, x = round2 q) ∧
    round2 (1 / 200) = 1 / 100 ∧
    (computeRunScore c9Scores "cat1" 1 1).map (fun r => r.average) = some (some 78) := by
  refine ⟨?_, ?_, ?_, ?_, ?_, ?_⟩
  · intro q
    refine ⟨⌊q * 100 + 1 / 2⌋, rfl, ?_, ?_⟩
    · have h1 := Int.floor_le (q * 100 + 1 / 2)
      linarith
    · have h2 := Int.lt_floor_add_one (q * 100 + 1 / 2)
      linarith
  · intro att g x1 x2 x3 h1 h2 h3
    refine ⟨?_, ?_⟩
    · simp only [scoreAttempt, judgeTable, JUDGE_ROLES, List.map_cons, List.map_nil,
        h1, h2, h3, Option.map_some, List.filterMap_cons, List.filterMap_nil]
      rfl
    · simp only [scoreAttempt, judgeTable, JUDGE_ROLES, List.map_cons, List.map_nil,
        h1, h2, h3, Option.map_some, List.filterMap_cons, List.filterMap_nil,
        List.length_cons, List.length_nil, List.sum_cons, List.sum_nil]
      norm_num
      congr 1
      ring
  · intro s c bib run m x hm hx
    rw [computeRunScore] at hm
    by_cases he : (s.filter (matchesQuery c bib run)).isEmpty
    · rw [if_pos he] at hm
      exact absurd hm (by simp)
    · rw [if_neg he] at hm
      obtain ⟨p, hp, rfl⟩ := List.mem_map.1 (pickBest_mem hm)
      simp only [scoreAttempt] at hx
      by_cases hl : 0 < ((judgeTable p.2).filterMap Prod.snd).length
      · rw [if_pos hl] at hx
        exact ⟨_, (Option.some.injEq .. ▸ hx).symm⟩
      · rw [if_neg hl] at hx
        exact absurd hx (by simp)
  · intro s cs a x hx
    simp only [computeFinalScore] at hx
    by_cases ha : (cs.map (scoreCategory s a.bib)).any (fun d => d.weighted.isSome) = true
    · rw [if_pos ha] at hx
      exact ⟨_, (Option.some.injEq .. ▸ hx).symm⟩
    · rw [if_neg ha] at hx
      exact absurd hx (by simp)
  · norm_num [round2]
  · have h : computeRunScore c9Scores "cat1" 1 1 = some c9Result := by
      norm_num +decide [computeRunScore, attemptResults, matchesQuery, groupByAttempt,
        addToGroups, pickBest, scoreAttempt, judgeTable, JUDGE_ROLES, round2, betterAttempt,
        List.find?, List.filterMap_cons, List.sum_cons, List.sum_nil, c9Scores, c9Result]
    rw [h]
    simp [c9Result]

/-- Witness for claim C9: the fully judged 77/78/79 attempt group is
complete and its average equals the rounded exact mean. -/
theorem claim_C9_round_half_up_witness :
    c9Scores.find? (fun sc => decide (sc.judgeRole = JudgeRole.J1)) =
      some ⟨.J1, "cat1", 1, 1, 1, 77⟩ ∧
    c9Scores.find? (fun sc => decide (sc.judgeRole = JudgeRole.J2)) =
      some ⟨.J2, "cat1", 1, 1, 1, 78⟩ ∧
    c9Scores.find? (fun sc => decide (sc.judgeRole = JudgeRole.J3)) =
      some ⟨.J3, "cat1", 1, 1, 1, 79⟩ ∧
    ((scoreAttempt 1 c9Scores).complete = true ∧
      (scoreAttempt 1 c9Scores).average =
        some (round2 ((77 + 78 + 79 : ℚ) / 3))) := by
  refine ⟨rfl, rfl, rfl, ?_⟩
  exact claim_C9_round_half_up.2.1 1 c9Scores ⟨.J1, "cat1", 1, 1, 1, 77⟩
    ⟨.J2, "cat1", 1, 1, 1, 78⟩ ⟨.J3, "cat1", 1, 1, 1, 79⟩ rfl rfl rfl

/-! ## Rank assignment -/

theorem assignRanksGo_length (p : Option ℚ) (i r : Nat) (l : List FinalScoreResult) :
    (assignRanksGo p i r l).length = l.length := by
  induction l generalizing p i r with
  | nil => rfl
  | cons f rest ih => simp [assignRanksGo, ih]

theorem assignRanks_length (l : List FinalScoreResult) :
    (assignRanks l).length = l.length :=
  assignRanksGo_length none 0 1 l

theorem assignRanksGo_get_succ (l : List FinalScoreResult) :
    ∀ (p : Option ℚ) (i r j : Nat) (hj1 : j + 1 < l.length)
      (ha1 : j + 1 < (assignRanksGo p i r l).length)
      (ha0 : j < (assignRanksGo p i r l).length),
      ((assignRanksGo p i r l).get ⟨j + 1, ha1⟩).rank =
        if (l.get ⟨j + 1, hj1⟩).weightedTotal =
            (l.get ⟨j, Nat.lt_of_succ_lt hj1⟩).weightedTotal
        then ((assignRanksGo p i r l).get ⟨j, ha0⟩).rank
        else i + j + 2 := by
  induction l with
  | nil =>
    intro p i r j hj1 ha1 ha0
    exact absurd hj1 (by simp)
  | cons f rest ih =>
    intro p i r j hj1 ha1 ha0
    cases j with
    | zero =>
      cases rest with
      | nil => simp at hj1
      | cons g rest2 =>
        by_cases hgf : g.weightedTotal = f.weightedTotal
        · simp [assignRanksGo, List.get_eq_getElem, hgf]
        · simp [assignRanksGo, List.get_eq_getElem, hgf]
    | succ j2 =>
      have hj1r : j2 + 1 < rest.length := by
        simpa using hj1
      have ha1r : j2 + 1 <
          (assignRanksGo f.weightedTotal (i + 1)
            (if 0 < i ∧ f.weightedTotal ≠ p then i + 1 else r) rest).length := by
        rw [assignRanksGo_length]
        exact hj1r
      have ha0r : j2 <
          (assignRanksGo f.weightedTotal (i + 1)
            (if 0 < i ∧ f.weightedTotal ≠ p then i + 1 else r) rest).length := by
        rw [assignRanksGo_length]
        exact Nat.lt_of_succ_lt hj1r
      have := ih f.weightedTotal (i + 1)
        (if 0 < i ∧ f.weightedTotal ≠ p then i + 1 else r) j2 hj1r ha1r ha0r
      simp only [assignRanksGo, List.get_eq_getElem, List.getElem_cons_succ] at this ⊢
      rw [show i + (j2 + 1) + 2 = i + 1 + j2 + 2 from by omega]
      exact this

/-- Claim C2: `rankAthletes` assigns ranks by standard competition ranking
over the sorted scored list: the first entry gets rank 1; a later entry
shares the previous entry's rank when their totals are equal and otherwise
gets its 1-based position; in the 80/80/70 scenario the ranks are 1, 1, 3
(not dense 1, 1, 2). -/
theorem claim_C2_standard_competition_ranking :
    (∀ (l : List FinalScoreResult) (h0 : 0 < (assignRanks l).length),
      ((assignRanks l).get ⟨0, h0⟩).rank = 1) ∧
    (∀ (l : List FinalScoreResult) (j : Nat) (hj1 : j + 1 < l.length)
      (ha1 : j + 1 < (assignRanks l).length) (ha0 : j < (assignRanks l).length),
      ((l.get ⟨j + 1, hj1⟩).weightedTotal =
          (l.get ⟨j, Nat.lt_of_succ_lt hj1⟩).weightedTotal →
        ((assignRanks l).get ⟨j + 1, ha1⟩).rank = ((assignRanks l).get ⟨j, ha0⟩).rank) ∧
      ((l.get ⟨j + 1, hj1⟩).weightedTotal ≠
          (l.get ⟨j, Nat.lt_of_succ_lt hj1⟩).weightedTotal →
        ((assignRanks l).get ⟨j + 1, ha1⟩).rank = j + 2)) ∧
    ((rankAthletes c2Scores [c2Cat] c2Athletes).map (fun e => (e.athleteBib, e.rank)) =
      [(1, 1), (2, 1), (3, 3)]) := by
  refine ⟨?_, ?_, ?_⟩
  · intro l h0
    cases l with
    | nil => simp [assignRanks, assignRanksGo] at h0
    | cons f rest => simp [assignRanks, assignRanksGo, List.get_eq_getElem]
  · intro l j hj1 ha1 ha0
    constructor
    · intro heq
      simp only [assignRanks] at ha1 ha0 ⊢
      rw [assignRanksGo_get_succ l none 0 1 j hj1 ha1 ha0, if_pos heq]
    · intro hne
      simp only [assignRanks] at ha1 ha0 ⊢
      rw [assignRanksGo_get_succ l none 0 1 j hj1 ha1 ha0, if_neg hne]
      omega
  · norm_num +decide [rankAthletes, rankFinals, computeFinalScore, scoreCategory, pickBestRun,
      computeRunScore, attemptResults, matchesQuery, groupByAttempt, addToGroups,
      pickBest, scoreAttempt, judgeTable, JUDGE_ROLES, round2, betterAttempt,
      List.find?, List.filterMap_cons, List.sum_cons, List.sum_nil,
      List.mergeSort, List.merge, assignRanks, assignRanksGo, totalDescLe, rankBibLe,
      c2Scores, c2Cat, c2Athletes]

/-- Witness for claim C2: in the sorted totals 80, 80, 70, the third entry
has a total different from the second and receives rank 3. -/
theorem claim_C2_standard_competition_ranking_witness :
    (c2Finals.get ⟨2, by norm_num [c2Finals]⟩).weightedTotal ≠
      (c2Finals.get ⟨1, by norm_num [c2Finals]⟩).weightedTotal ∧
    ((assignRanks c2Finals).get
        ⟨2, by rw [assignRanks_length]; norm_num [c2Finals]⟩).rank = 3 := by
  have hne : (c2Finals.get ⟨2, by norm_num [c2Finals]⟩).weightedTotal ≠
      (c2Finals.get ⟨1, by norm_num [c2Finals]⟩).weightedTotal := by
    norm_num [c2Finals]
  exact ⟨hne, (claim_C2_standard_competition_ranking.2.1 c2Finals 1
    (by norm_num [c2Finals])
    (by rw [assignRanks_length]; norm_num [c2Finals])
    (by rw [assignRanks_length]; norm_num [c2Finals])).2 hne⟩

/-! ## Structure of the ranked output -/

theorem mem_assignRanksGo {l : List FinalScoreResult} :
    ∀ {p : Option ℚ} {i r : Nat} (e : RankedAthlete), e ∈ assignRanksGo p i r l →
      e.toFinalScoreResult ∈ l := by
  induction l with
  | nil =>
    intro p i r e h
    simp [assignRanksGo] at h
  | cons f rest ih =>
    intro p i r e h
    simp only [assignRanksGo, List.mem_cons] at h
    rcases h with h | h
    · subst h
      exact List.mem_cons_self _ _
    · exact List.mem_cons_of_mem _ (ih e h)

theorem assignRanksGo_rank_le {l : List FinalScoreResult} :
    ∀ {p : Option ℚ} {i r : Nat}, r ≤ i + 1 →
      ∀ e ∈ assignRanksGo p i r l, e.rank ≤ i + l.length := by
  induction l with
  | nil =>
    intro p i r hr e he
    simp [assignRanksGo] at he
  | cons f rest ih =>
    intro p i r hr e he
    simp only [assignRanksGo, List.mem_cons] at he
    rcases he with he | he
    · subst he
      simp only [List.length_cons]
      by_cases hc : 0 < i ∧ f.weightedTotal ≠ p
      · simp only [if_pos hc]
        omega
      · simp only [if_neg hc]
        omega
    · have hr2 : (if 0 < i ∧ f.weightedTotal ≠ p then i + 1 else r) ≤ i + 1 + 1 := by
        split <;> omega
      have := ih hr2 e he
      simp only [List.length_cons]
      omega

theorem rankBibLe_trans (a b c : RankedAthlete) :
    rankBibLe a b = true → rankBibLe b c = true → rankBibLe a c = true := by
  simp only [rankBibLe, decide_eq_true_eq]
  omega

theorem rankBibLe_total (a b : RankedAthlete) :
    (rankBibLe a b || rankBibLe b a) = true := by
  simp only [rankBibLe, Bool.or_eq_true, decide_eq_true_eq]
  omega

theorem rankFinals_sorted (finals : List FinalScoreResult) :
    List.Pairwise (fun a b => rankBibLe a b = true) (rankFinals finals) :=
  List.sorted_mergeSort rankBibLe_trans rankBibLe_total _

theorem rankFinals_length (finals : List FinalScoreResult) :
    (rankFinals finals).length = finals.length := by
  simp only [rankFinals, List.length_mergeSort, List.length_append, List.length_map,
    assignRanks, assignRanksGo_length]
  simpa using (@List.length_eq_length_filter_add FinalScoreResult finals
    (fun f => f.weightedTotal.isSome)).symm

theorem rankFinals_mem (finals : List FinalScoreResult) :
    ∀ e ∈ rankFinals finals,
      (e.weightedTotal.isSome = true ∧
        e.rank ≤ (finals.filter (fun f => f.weightedTotal.isSome)).length) ∨
      (e.weightedTotal = none ∧
        e.rank = (finals.filter (fun f => f.weightedTotal.isSome)).length + 1 ∧
        e.toFinalScoreResult ∈ finals.filter (fun f => !f.weightedTotal.isSome)) := by
  intro e he
  simp only [rankFinals] at he
  have he2 := (List.mergeSort_perm _ rankBibLe).mem_iff.1 he
  rcases List.mem_append.1 he2 with hr | hu
  · left
    have hmem := mem_assignRanksGo e hr
    have hmem2 :=
      ((List.mergeSort_perm _ totalDescLe).mem_iff).1 hmem
    have hsome := (List.mem_filter.1 hmem2).2
    refine ⟨hsome, ?_⟩
    have hle := assignRanksGo_rank_le (le_refl 1) e hr
    rw [List.length_mergeSort] at hle
    omega
  · right
    obtain ⟨f, hf, rfl⟩ := List.mem_map.1 hu
    have hnone : f.weightedTotal = none := by
      simpa using (List.mem_filter.1 hf).2
    refine ⟨hnone, ?_, hf⟩
    show (if 0 < (assignRanks ((finals.filter
        (fun f => f.weightedTotal.isSome)).mergeSort totalDescLe)).length
      then (assignRanks ((finals.filter
        (fun f => f.weightedTotal.isSome)).mergeSort totalDescLe)).length + 1
      else 1) = (finals.filter (fun f => f.weightedTotal.isSome)).length + 1
    rw [assignRanks, assignRanksGo_length, List.length_mergeSort]
    split <;> omega

theorem sorted_split (n : Nat) (l : List RankedAthlete)
    (hs : List.Pairwise (fun a b => rankBibLe a b = true) l)
    (hm : ∀ e ∈ l, (e.weightedTotal.isSome = true ∧ e.rank ≤ n) ∨
      (e.weightedTotal = none ∧ e.rank = n + 1)) :
    ∃ l1 l2, l = l1 ++ l2 ∧ (∀ e ∈ l1, e.weightedTotal.isSome = true) ∧
      ∀ e ∈ l2, e.weightedTotal = none ∧ e.rank = n + 1 := by
  induction l with
  | nil => exact ⟨[], [], rfl, by simp, by simp⟩
  | cons e t ih =>
    rcases hm e (List.mem_cons_self _ _) with ⟨h1, h2⟩ | ⟨h1, h2⟩
    · obtain ⟨l1, l2, hsplit, ha, hb⟩ :=
        ih hs.of_cons (fun x hx => hm x (List.mem_cons_of_mem _ hx))
      refine ⟨e :: l1, l2, by rw [hsplit, List.cons_append], ?_, hb⟩
      intro x hx
      rcases List.mem_cons.1 hx with h | h
      · exact h ▸ h1
      · exact ha x h
    · refine ⟨[], e :: t, rfl, by simp, ?_⟩
      intro x hx
      rcases List.mem_cons.1 hx with h | h
      · exact h ▸ ⟨h1, h2⟩
      · rcases hm x (List.mem_cons_of_mem _ h) with ⟨g1, g2⟩ | g
        · have hle := (List.pairwise_cons.1 hs).1 x h
          rw [rankBibLe, decide_eq_true_eq] at hle
          omega
        · exact g

/-- Claim C6: athletes with an absent total come after every athlete with a
present total in the output of `rankAthletes`, all sharing the rank
(count of scored athletes) + 1 — which is rank 1 when nobody is scored —
and an empty athlete list yields an empty result. -/
theorem claim_C6_unscored_last (s : List Score) (cs : List Category)
    (aths : List Athlete) :
    (rankAthletes s cs [] = []) ∧
    ∃ l1 l2, rankAthletes s cs aths = l1 ++ l2 ∧
      (∀ e ∈ l1, e.weightedTotal.isSome = true) ∧
      ∀ e ∈ l2, e.weightedTotal = none ∧
        e.rank = (if 0 < ((aths.map (computeFinalScore s cs)).filter
              (fun f => f.weightedTotal.isSome)).length
          then ((aths.map (computeFinalScore s cs)).filter
              (fun f => f.weightedTotal.isSome)).length + 1
          else 1) := by
  constructor
  · simp [rankAthletes, rankFinals, assignRanks, assignRanksGo, List.mergeSort_nil]
  · have hif : (if 0 < ((aths.map (computeFinalScore s cs)).filter
          (fun f => f.weightedTotal.isSome)).length
        then ((aths.map (computeFinalScore s cs)).filter
            (fun f => f.weightedTotal.isSome)).length + 1
        else 1) = ((aths.map (computeFinalScore s cs)).filter
            (fun f => f.weightedTotal.isSome)).length + 1 := by
      split <;> omega
    rw [hif]
    obtain ⟨l1, l2, hsplit, ha, hb⟩ :=
      sorted_split ((aths.map (computeFinalScore s cs)).filter
          (fun f => f.weightedTotal.isSome)).length
        (rankFinals (aths.map (computeFinalScore s cs)))
        (rankFinals_sorted _)
        (fun e he => by
          rcases rankFinals_mem _ e he with ⟨h1, h2⟩ | ⟨h1, h2, -⟩
          · exact Or.inl ⟨h1, h2⟩
          · exact Or.inr ⟨h1, h2⟩)
    exact ⟨l1, l2, hsplit, ha, hb⟩

/-- Claim C8: `rankAthletes` returns exactly one entry per supplied athlete,
every assigned rank is at most the athlete count, and the output is ordered
by rank ascending with ties ordered by bib ascending. -/
theorem claim_C8_cover_bound_sorted (s : List Score) (cs : List Category)
    (aths : List Athlete) :
    (rankAthletes s cs aths).length = aths.length ∧
    (∀ e ∈ rankAthletes s cs aths, e.rank ≤ aths.length) ∧
    List.Pairwise (fun a b : RankedAthlete =>
      a.rank < b.rank ∨ (a.rank = b.rank ∧ a.athleteBib ≤ b.athleteBib))
      (rankAthletes s cs aths) := by
  refine ⟨?_, ?_, ?_⟩
  · rw [rankAthletes, rankFinals_length, List.length_map]
  · intro e he
    rw [rankAthletes] at he
    have hlen : (aths.map (computeFinalScore s cs)).length = aths.length :=
      List.length_map _ _
    rcases rankFinals_mem _ e he with ⟨-, h2⟩ | ⟨-, h2, h3⟩
    · have := List.length_filter_le (fun f => f.weightedTotal.isSome)
        (aths.map (computeFinalScore s cs))
      omega
    · have hne : ((aths.map (computeFinalScore s cs)).filter
          (fun f => !f.weightedTotal.isSome)).length > 0 :=
        List.length_pos.2 (List.ne_nil_of_mem h3)
      have hpart := @List.length_eq_length_filter_add FinalScoreResult
        (aths.map (computeFinalScore s cs)) (fun f => f.weightedTotal.isSome)
      simp only [Bool.not_eq_true] at hpart hne
      omega
  · rw [rankAthletes]
    exact (rankFinals_sorted _).imp (fun h => by
      rw [rankBibLe, decide_eq_true_eq] at h
      exact h)

/-! ## Duplicate-submission invariance -/

theorem groupByAttempt_append_single (l : List Score) (d : Score) :
    groupByAttempt (l ++ [d]) = addToGroups (groupByAttempt l) d.attempt d := by
  rw [groupByAttempt, groupByAttempt, List.foldl_append]
  rfl

theorem addToGroups_key_in {gs : List (Nat × List Score)} {k : Nat} (y : Score)
    (hk : k ∈ gs.map Prod.fst) (hnd : (gs.map Prod.fst).Nodup) :
    addToGroups gs k y = gs.map (fun p => if p.1 = k then (p.1, p.2 ++ [y]) else p) := by
  induction gs with
  | nil => simp at hk
  | cons p rest ih =>
    obtain ⟨k2, g⟩ := p
    by_cases hcase : k2 = k
    · subst hcase
      have hno : k2 ∉ rest.map Prod.fst := by
        rw [List.map_cons] at hnd
        exact (List.nodup_cons.1 hnd).1
      have hmap : rest.map (fun p => if p.1 = k2 then (p.1, p.2 ++ [y]) else p) = rest := by
        calc rest.map (fun p => if p.1 = k2 then (p.1, p.2 ++ [y]) else p)
            = rest.map id := by
              refine List.map_congr_left (fun q hq => ?_)
              have hqne : q.1 ≠ k2 := fun he => hno (he ▸ List.mem_map_of_mem Prod.fst hq)
              rw [if_neg hqne]
              rfl
          _ = rest := List.map_id rest
      simp [addToGroups, hmap]
    · have h1 : k ∈ rest.map Prod.fst := by
        rw [List.map_cons] at hk
        rcases List.mem_cons.1 hk with h | h
        · exact absurd h.symm hcase
        · exact h
      have h2 : (rest.map Prod.fst).Nodup := by
        rw [List.map_cons] at hnd
        exact (List.nodup_cons.1 hnd).2
      simp [addToGroups, hcase, ih h1 h2]

theorem addToGroups_key_notin {gs : List (Nat × List Score)} {k : Nat} (y : Score)
    (hk : k ∉ gs.map Prod.fst) :
    addToGroups gs k y = gs ++ [(k, [y])] := by
  induction gs with
  | nil => rfl
  | cons p rest ih =>
    obtain ⟨k2, g⟩ := p
    have hne : k2 ≠ k := by
      intro he
      exact hk (he ▸ List.mem_map_of_mem Prod.fst (List.mem_cons_self _ _))
    simp only [addToGroups, if_neg hne, List.cons_append]
    congr 1
    refine ih (fun hmem => hk ?_)
    rw [List.map_cons]
    exact List.mem_cons_of_mem _ hmem

theorem groupByAttempt_inv (l : List Score) :
    ((groupByAttempt l).map Prod.fst).Nodup ∧
    (∀ p ∈ groupByAttempt l, p.2 = l.filter (fun x => decide (x.attempt = p.1))) ∧
    (∀ k : Nat, (∃ x ∈ l, x.attempt = k) ↔ k ∈ (groupByAttempt l).map Prod.fst) := by
  induction l using List.reverseRecOn with
  | nil =>
    refine ⟨by simp [groupByAttempt], by simp [groupByAttempt], by simp [groupByAttempt]⟩
  | append_singleton l y ih =>
    obtain ⟨ihnd, ihfil, ihkey⟩ := ih
    rw [groupByAttempt_append_single]
    by_cases hk : y.attempt ∈ (groupByAttempt l).map Prod.fst
    · rw [addToGroups_key_in y hk ihnd]
      have hkeys : ((groupByAttempt l).map
            (fun p => if p.1 = y.attempt then (p.1, p.2 ++ [y]) else p)).map Prod.fst =
          (groupByAttempt l).map Prod.fst := by
        rw [List.map_map]
        refine List.map_congr_left (fun q hq => ?_)
        by_cases h : q.1 = y.attempt <;> simp [h]
      refine ⟨by rw [hkeys]; exact ihnd, ?_, ?_⟩
      · intro p hp
        obtain ⟨q, hq, hpq⟩ := List.mem_map.1 hp
        by_cases hq1 : q.1 = y.attempt
        · rw [if_pos hq1] at hpq
          subst hpq
          rw [List.filter_append]
          have hy : [y].filter (fun x => decide (x.attempt = q.1)) = [y] := by
            simp [hq1]
          rw [hy, ← ihfil q hq]
        · rw [if_neg hq1] at hpq
          subst hpq
          rw [List.filter_append]
          have hy : [y].filter (fun x => decide (x.attempt = q.1)) = [] := by
            have hd : decide (y.attempt = q.1) = false :=
              decide_eq_false (fun he => hq1 he.symm)
            simp only [List.filter, hd]
          rw [hy, List.append_nil]
          exact ihfil q hq
      · intro k
        rw [hkeys]
        constructor
        · rintro ⟨x, hx, hxk⟩
          rcases List.mem_append.1 hx with h | h
          · exact (ihkey k).1 ⟨x, h, hxk⟩
          · rw [List.mem_singleton] at h
            subst h
            exact hxk ▸ hk
        · intro h
          obtain ⟨x, hx, hxk⟩ := (ihkey k).2 h
          exact ⟨x, List.mem_append_left _ hx, hxk⟩
    · rw [addToGroups_key_notin y hk]
      refine ⟨?_, ?_, ?_⟩
      · rw [List.map_append]
        rw [List.nodup_append]
        refine ⟨ihnd, by simp, ?_⟩
        intro a ha hb
        simp only [List.map_cons, List.map_nil, List.mem_singleton] at hb
        exact hk (hb ▸ ha)
      · intro p hp
        rcases List.mem_append.1 hp with h | h
        · have hne : y.attempt ≠ p.1 := by
            intro he
            exact hk (he ▸ List.mem_map_of_mem Prod.fst h)
          rw [List.filter_append]
          have hy : [y].filter (fun x => decide (x.attempt = p.1)) = [] := by
            have hd : decide (y.attempt = p.1) = false := decide_eq_false hne
            simp only [List.filter, hd]
          rw [hy, List.append_nil]
          exact ihfil p h
        · rw [List.mem_singleton] at h
          subst h
          have hfl : l.filter (fun x => decide (x.attempt = y.attempt)) = [] := by
            rw [List.filter_eq_nil_iff]
            intro a ha
            simp only [decide_eq_true_eq]
            intro he
            exact hk ((ihkey y.attempt).1 ⟨a, ha, he⟩)
          rw [List.filter_append, hfl, List.nil_append]
          simp
      · intro k
        rw [List.map_append]
        constructor
        · rintro ⟨x, hx, hxk⟩
          rcases List.mem_append.1 hx with h | h
          · exact List.mem_append_left _ ((ihkey k).1 ⟨x, h, hxk⟩)
          · rw [List.mem_singleton] at h
            subst h
            subst hxk
            exact List.mem_append_right _ (by simp)
        · intro h
          rcases List.mem_append.1 h with h | h
          · obtain ⟨x, hx, hxk⟩ := (ihkey k).2 h
            exact ⟨x, List.mem_append_left _ hx, hxk⟩
          · simp only [List.map_cons, List.map_nil, List.mem_singleton] at h
            exact ⟨y, List.mem_append_right _ (by simp), h.symm⟩

theorem judgeTable_middle_dup {g1 g2 : List Score} {d : Score}
    (h : ∃ x ∈ g1, x.judgeRole = d.judgeRole) :
    judgeTable (g1 ++ d :: g2) = judgeTable (g1 ++ g2) := by
  unfold judgeTable
  refine List.map_congr_left (fun ro hro => ?_)
  rw [List.find?_append, List.find?_append]
  cases hf : g1.find? (fun sc => decide (sc.judgeRole = ro)) with
  | some v => rfl
  | none =>
    rw [Option.none_or, Option.none_or]
    rw [List.find?_eq_none] at hf
    have hdro : ¬ (decide (d.judgeRole = ro) = true) := by
      simp only [decide_eq_true_eq]
      intro he
      obtain ⟨x0, hx0, hrole⟩ := h
      exact hf x0 hx0 (by simp [hrole, he])
    rw [List.find?_cons_of_neg g2 hdro]

theorem scoreAttempt_middle_dup {att : Nat} {g1 g2 : List Score} {d : Score}
    (h : ∃ x ∈ g1, x.judgeRole = d.judgeRole) :
    scoreAttempt att (g1 ++ d :: g2) = scoreAttempt att (g1 ++ g2) := by
  simp only [scoreAttempt, judgeTable_middle_dup h]

theorem groups_canonical (G : List (Nat × List Score)) (F : Nat → List Score)
    (h : ∀ p ∈ G, p.2 = F p.1) :
    G = (G.map Prod.fst).map (fun k => (k, F k)) := by
  rw [List.map_map]
  calc G = G.map (fun p => p) := (List.map_id' G).symm
    _ = G.map ((fun k => (k, F k)) ∘ Prod.fst) :=
        List.map_congr_left (fun p hp => Prod.ext rfl (h p hp))

theorem keysOf_append_single (l : List Score) (y : Score) :
    (groupByAttempt (l ++ [y])).map Prod.fst =
      if y.attempt ∈ (groupByAttempt l).map Prod.fst
      then (groupByAttempt l).map Prod.fst
      else (groupByAttempt l).map Prod.fst ++ [y.attempt] := by
  rw [groupByAttempt_append_single]
  by_cases hk : y.attempt ∈ (groupByAttempt l).map Prod.fst
  · rw [if_pos hk, addToGroups_key_in y hk (groupByAttempt_inv l).1, List.map_map]
    refine List.map_congr_left (fun q hq => ?_)
    by_cases h : q.1 = y.attempt <;> simp [h]
  · rw [if_neg hk, addToGroups_key_notin y hk, List.map_append]
    rfl

theorem keysOf_middle (l2 : List Score) :
    ∀ (l1 : List Score) (d : Score),
      d.attempt ∈ (groupByAttempt l1).map Prod.fst →
      (groupByAttempt (l1 ++ d :: l2)).map Prod.fst =
        (groupByAttempt (l1 ++ l2)).map Prod.fst := by
  induction l2 using List.reverseRecOn with
  | nil =>
    intro l1 d hk
    rw [List.append_nil, keysOf_append_single l1 d, if_pos hk]
  | append_singleton l2 y ih =>
    intro l1 d hk
    have e1 : l1 ++ d :: (l2 ++ [y]) = (l1 ++ d :: l2) ++ [y] := by simp
    have e2 : l1 ++ (l2 ++ [y]) = (l1 ++ l2) ++ [y] := by
      rw [List.append_assoc]
    rw [e1, e2, keysOf_append_single, keysOf_append_single, ih l1 d hk]

theorem mapScore_group_middle_dup (f1 f2 : List Score) (d : Score)
    (h : ∃ x ∈ f1, x.attempt = d.attempt ∧ x.judgeRole = d.judgeRole) :
    (groupByAttempt (f1 ++ d :: f2)).map (fun p => scoreAttempt p.1 p.2) =
      (groupByAttempt (f1 ++ f2)).map (fun p => scoreAttempt p.1 p.2) := by
  obtain ⟨x0, hx0, hatt, hrole⟩ := h
  have hkin : d.attempt ∈ (groupByAttempt f1).map Prod.fst :=
    ((groupByAttempt_inv f1).2.2 d.attempt).1 ⟨x0, hx0, hatt⟩
  have hkeys := keysOf_middle f2 f1 d hkin
  have key : ∀ k, k ∈ (groupByAttempt (f1 ++ f2)).map Prod.fst →
      scoreAttempt k ((f1 ++ d :: f2).filter (fun x => decide (x.attempt = k))) =
        scoreAttempt k ((f1 ++ f2).filter (fun x => decide (x.attempt = k))) := by
    intro k hk
    by_cases hkd : d.attempt = k
    · rw [List.filter_append, List.filter_append,
        List.filter_cons_of_pos (by simp [hkd])]
      exact scoreAttempt_middle_dup
        ⟨x0, List.mem_filter.2 ⟨hx0, by simp [hatt, hkd]⟩, hrole⟩
    · rw [List.filter_append, List.filter_append,
        List.filter_cons_of_neg (by simp [hkd])]
  conv_lhs => rw [groups_canonical (groupByAttempt (f1 ++ d :: f2))
    (fun k => (f1 ++ d :: f2).filter (fun x => decide (x.attempt = k)))
    (groupByAttempt_inv (f1 ++ d :: f2)).2.1]
  conv_rhs => rw [groups_canonical (groupByAttempt (f1 ++ f2))
    (fun k => (f1 ++ f2).filter (fun x => decide (x.attempt = k)))
    (groupByAttempt_inv (f1 ++ f2)).2.1]
  rw [hkeys]
  simp only [List.map_map]
  refine List.map_congr_left (fun p hp => ?_)
  simp only [Function.comp]
  exact key p.1 (List.mem_map_of_mem Prod.fst hp)

/-- Claim C10: a submission whose (judgeRole, categoryId, athleteBib, run,
attempt) tuple already occurs earlier in the input list does not affect
`computeRunScore`, wherever in the list the duplicate sits — the engine
resolves duplicate tuples by keep-first, not keep-latest, because the
per-role lookup takes the first match in list order. -/
theorem claim_C10_duplicate_keep_first (s1 : List Score) (d : Score) (s2 : List Score)
    (c : String) (bib run : Nat) (h : ∃ s0 ∈ s1, sameTuple s0 d) :
    computeRunScore (s1 ++ d :: s2) c bib run = computeRunScore (s1 ++ s2) c bib run := by
  obtain ⟨s0, hs0, ht⟩ := h
  obtain ⟨htr, htc, htb, htrn, hta⟩ := ht
  by_cases hq : matchesQuery c bib run d = true
  · have hq0 : matchesQuery c bib run s0 = true := by
      simp only [matchesQuery, Bool.and_eq_true, decide_eq_true_eq] at hq ⊢
      exact ⟨⟨htc.trans hq.1.1, htb.trans hq.1.2⟩, htrn.trans hq.2⟩
    have hfil1 : (s1 ++ d :: s2).filter (matchesQuery c bib run) =
        s1.filter (matchesQuery c bib run) ++ d :: s2.filter (matchesQuery c bib run) := by
      rw [List.filter_append, List.filter_cons_of_pos hq]
    have hfil2 : (s1 ++ s2).filter (matchesQuery c bib run) =
        s1.filter (matchesQuery c bib run) ++ s2.filter (matchesQuery c bib run) :=
      List.filter_append _ _
    have hs0f : s0 ∈ s1.filter (matchesQuery c bib run) :=
      List.mem_filter.2 ⟨hs0, hq0⟩
    have hne1 : ¬ ((s1 ++ d :: s2).filter (matchesQuery c bib run)).isEmpty = true := by
      rw [hfil1]
      simp
    have hne2 : ¬ ((s1 ++ s2).filter (matchesQuery c bib run)).isEmpty = true := by
      intro hemp
      rw [hfil2, List.isEmpty_iff, List.append_eq_nil] at hemp
      rw [hemp.1] at hs0f
      simp at hs0f
    rw [computeRunScore, computeRunScore, if_neg hne1, if_neg hne2]
    congr 1
    rw [attemptResults, attemptResults, hfil1, hfil2]
    exact mapScore_group_middle_dup _ _ d ⟨s0, hs0f, hta, htr⟩
  · have hfil : (s1 ++ d :: s2).filter (matchesQuery c bib run) =
        s1.filter (matchesQuery c bib run) ++ s2.filter (matchesQuery c bib run) := by
      rw [List.filter_append, List.filter_cons_of_neg hq]
    rw [computeRunScore, computeRunScore, attemptResults, attemptResults, hfil,
      List.filter_append]

/-- Witness for claim C10: a duplicate of the first 77-point J1 submission
(same tuple, value 95) inserted in the middle of the list, before a later
J2 submission, leaves the run score unchanged. -/
theorem claim_C10_duplicate_keep_first_witness :
    (∃ s0 ∈ c9Scores, sameTuple s0 c10Dup) ∧
    computeRunScore (c9Scores ++ c10Dup :: c10Tail) "cat1" 1 1 =
      computeRunScore (c9Scores ++ c10Tail) "cat1" 1 1 := by
  have h : ∃ s0 ∈ c9Scores, sameTuple s0 c10Dup :=
    ⟨⟨.J1, "cat1", 1, 1, 1, 77⟩, List.mem_cons_self _ _, ⟨rfl, rfl, rfl, rfl, rfl⟩⟩
  exact ⟨h, claim_C10_duplicate_keep_first c9Scores c10Dup c10Tail "cat1" 1 1 h⟩

/-- Witness for claim C6: an empty athlete list produces an empty ranking. -/
theorem claim_C6_unscored_last_witness :
    rankAthletes c1Scores [c1CatA] [] = [] :=
  (claim_C6_unscored_last c1Scores [c1CatA] []).1

/-- Witness for claim C8: the tie scenario ranking covers its three athletes. -/
theorem claim_C8_cover_bound_sorted_witness :
    (rankAthletes c2Scores [c2Cat] c2Athletes).length = c2Athletes.length :=
  (claim_C8_cover_bound_sorted c2Scores [c2Cat] c2Athletes).1

end Judgesystem
